import Mathlib

/-!
Verification of the tab-saver reconciliation core.

The definitions below are a shallow embedding of the repository's session
library (`saveAll`, `restoreAll`, `restoreGroup`, `restoreTab`,
`removeGroup`, `removeTab`, `resaveGroup`, `saveTab`) and of the sidepanel
sync-status computation (`buildLiveModel`, `urlsMatch`, `uniqueSortedUrls`).
External effects (the snapshot store, tab/group creation, window
resolution) are made explicit: store contents are passed and returned as
values, and restore operations thread a call counter through an
environment `env : Nat → Option Nat` giving the numeric response of the
n-th external call (`none` = that call fails), while recording the list
of issued calls.
-/

namespace TabSaver

/-- Tab group colors, from `src/lib/types.ts`. -/
inductive TabGroupColor where
  | grey | blue | red | yellow | green | pink | purple | cyan | orange
deriving DecidableEq

/-- `SavedTab` from `src/lib/types.ts`. -/
structure SavedTab where
  url : String
  title : String
  pinned : Bool
  index : Nat
deriving DecidableEq

/-- `SavedGroup` from `src/lib/types.ts`. -/
structure SavedGroup where
  title : String
  color : TabGroupColor
  collapsed : Bool
  tabs : List SavedTab
deriving DecidableEq

/-- `SavedState` from `src/lib/types.ts`; the persisted document. -/
structure SavedState where
  savedAt : Nat
  ungroupedTabs : List SavedTab
  groups : List SavedGroup
deriving DecidableEq

/-- A live browser tab as reported by `chrome.tabs.query` (the fields the
core reads: `url`/`title` may be `undefined`, `groupId` is `-1` for
ungrouped tabs). -/
structure LiveTab where
  id : Nat
  url : Option String
  title : Option String
  pinned : Bool
  index : Nat
  groupId : Int
deriving DecidableEq

/-- A live tab group as reported by `chrome.tabGroups.query` (`title` may
be `undefined`). -/
structure LiveGroup where
  id : Int
  title : Option String
  color : TabGroupColor
  collapsed : Bool
deriving DecidableEq

/-- `Result` from `src/lib/session.ts`: `null` on success or an
`{ error }` object. -/
inductive Result where
  | ok
  | err (msg : String)
deriving DecidableEq

/-- `tabToSavedTab` from `src/lib/session.ts`. -/
def tabToSavedTab (t : LiveTab) : SavedTab :=
  { url := t.url.getD "", title := t.title.getD "", pinned := t.pinned, index := t.index }

/-- The `.sort((a, b) => a.index - b.index)` applied to group member tabs;
JavaScript's `Array.prototype.sort` is stable, as is `insertionSort` with
a `≤` comparator. -/
def sortByIndex (l : List LiveTab) : List LiveTab :=
  List.insertionSort (fun a b => a.index ≤ b.index) l

/-- The fresh ungrouped-tab capture in `saveAll`:
`tabs.filter(t => t.groupId === -1).map(tabToSavedTab)`. -/
def freshUngroupedTabs (tabs : List LiveTab) : List SavedTab :=
  (tabs.filter (fun t => t.groupId == -1)).map tabToSavedTab

/-- The per-group capture shared by `saveAll` and `resaveGroup`: gather the
group's member tabs, sort by index, convert. -/
def captureGroup (tabs : List LiveTab) (g : LiveGroup) : SavedGroup :=
  { title := g.title.getD ""
    color := g.color
    collapsed := g.collapsed
    tabs := (sortByIndex (tabs.filter (fun t => t.groupId == g.id))).map tabToSavedTab }

/-- The upsert step of the merge loops in `saveAll` and `resaveGroup`:
`findIndex` of the first entry whose title equals `title`, replace it in
place, else push at the end. -/
def upsertGroupByTitle (title : String) (ng : SavedGroup) : List SavedGroup → List SavedGroup
  | [] => [ng]
  | h :: t => if h.title == title then ng :: t else h :: upsertGroupByTitle title ng t

/-- The merge loop of `saveAll`: fold the freshly captured groups into the
previously saved groups list. -/
def mergeGroups (base fresh : List SavedGroup) : List SavedGroup :=
  fresh.foldl (fun acc g => upsertGroupByTitle g.title g acc) base

/-- `saveAll` from `src/lib/session.ts` as a pure state transformer:
inputs are the loaded store contents, the live tab and group enumerations
and the current time; the output is the document written back. -/
def saveAll (prev : Option SavedState) (tabs : List LiveTab) (groups : List LiveGroup)
    (now : Nat) : SavedState :=
  let openGroups := groups.map (captureGroup tabs)
  let baseGroups := (prev.map SavedState.groups).getD []
  { savedAt := now
    ungroupedTabs := freshUngroupedTabs tabs
    groups := mergeGroups baseGroups openGroups }

/-- `removeGroup` from `src/lib/session.ts`: result and store contents
after the operation (`none` store = no document present; a missing
document is left missing). -/
def removeGroup (title : String) (store : Option SavedState) : Result × Option SavedState :=
  match store with
  | none => (.ok, none)
  | some st =>
    (.ok, some { st with groups := st.groups.filter (fun g => !(g.title == title)) })

/-- `removeTab` from `src/lib/session.ts`. -/
def removeTab (url : String) (store : Option SavedState) : Result × Option SavedState :=
  match store with
  | none => (.ok, none)
  | some st =>
    (.ok, some { st with ungroupedTabs := st.ungroupedTabs.filter (fun t => !(t.url == url)) })

/-- The upsert step of `saveTab`: replace the first ungrouped entry whose
url matches, else append. -/
def upsertTabByUrl (url : String) (tab : SavedTab) : List SavedTab → List SavedTab
  | [] => [tab]
  | h :: t => if h.url == url then tab :: t else h :: upsertTabByUrl url tab t

/-- `saveTab` from `src/lib/session.ts`. -/
def saveTab (url title : String) (pinned : Bool) (store : Option SavedState)
    (now : Nat) : Result × Option SavedState :=
  let base := store.getD { savedAt := now, ungroupedTabs := [], groups := [] }
  let tab : SavedTab := { url := url, title := title, pinned := pinned, index := 0 }
  (.ok, some { base with ungroupedTabs := upsertTabByUrl url tab base.ungroupedTabs })

/-- `resaveGroup` from `src/lib/session.ts`: finds the live group by
title, captures it, and upserts it into the previous document. -/
def resaveGroup (title : String) (liveTabs : List LiveTab) (liveGroups : List LiveGroup)
    (prev : Option SavedState) (now : Nat) : Result × Option SavedState :=
  match liveGroups.find? (fun g => g.title == some title) with
  | none => (.err s!"No open group named \"{title}\"", prev)
  | some liveGroup =>
    let newSavedGroup := captureGroup liveTabs liveGroup
    let baseGroups := (prev.map SavedState.groups).getD []
    let updatedGroups := upsertGroupByTitle title newSavedGroup baseGroups
    (.ok, some
      { savedAt := (prev.map SavedState.savedAt).getD now
        ungroupedTabs := (prev.map SavedState.ungroupedTabs).getD []
        groups := updatedGroups })

/-! ### Sync-status computation (`buildLiveModel` in the sidepanel) -/

/-- Sync status classification. -/
inductive SyncStatus where
  | saved
  | outOfSync
  | unsaved
deriving DecidableEq

/-- `normalizeUrl` from the sidepanel: `url ?? ''`. -/
def normalizeUrl (u : Option String) : String := u.getD ""

/-- The `[...new Set(urls)]` step of `uniqueSortedUrls`: de-duplicate
keeping the first occurrence of each url, in order. -/
def dedupFirst : List String → List String
  | [] => []
  | x :: xs => x :: (dedupFirst xs).filter (fun y => !(y == x))

/-- `uniqueSortedUrls` from the sidepanel: de-duplicate, then sort. -/
def uniqueSortedUrls (urls : List String) : List String :=
  List.insertionSort (fun a b => a ≤ b) (dedupFirst urls)

/-- `urlsMatch` from the sidepanel: equal length and pointwise equal. -/
def urlsMatch (left right : List String) : Bool :=
  left.length == right.length && (left.zip right).all (fun p => p.1 == p.2)

/-- The `savedGroupByTitle` map of `buildLiveModel`: a JavaScript `Map`
built from `(title, group)` pairs, so a later entry with the same title
wins; lookup by title. -/
def savedGroupByTitle (gs : List SavedGroup) (t : String) : Option SavedGroup :=
  gs.foldl (fun acc g => if g.title == t then some g else acc) none

/-- The member tabs `buildLiveModel` associates with a live group:
`tabsByGroupId` holds only tabs with a non-negative `groupId`, grouped in
enumeration order, and the group's list is sorted by index. -/
def liveGroupTabs (tabs : List LiveTab) (g : LiveGroup) : List LiveTab :=
  sortByIndex (tabs.filter (fun t => 0 ≤ t.groupId && t.groupId == g.id))

/-- The sync status `buildLiveModel` computes for a live group. -/
def groupSyncStatus (state : Option SavedState) (tabs : List LiveTab)
    (g : LiveGroup) : SyncStatus :=
  let savedGroups := (state.map SavedState.groups).getD []
  let title := g.title.getD ""
  match savedGroupByTitle savedGroups title with
  | none => .unsaved
  | some savedGroup =>
    let liveUrls := uniqueSortedUrls ((liveGroupTabs tabs g).map (fun t => normalizeUrl t.url))
    let savedUrls := uniqueSortedUrls (savedGroup.tabs.map SavedTab.url)
    if urlsMatch liveUrls savedUrls then .saved else .outOfSync

/-- The sync status `buildLiveModel` computes for a live ungrouped tab:
membership of its normalized url in the saved ungrouped url set. -/
def tabSyncStatus (state : Option SavedState) (t : LiveTab) : SyncStatus :=
  let savedUngrouped := (state.map SavedState.ungroupedTabs).getD []
  if (savedUngrouped.map SavedTab.url).contains (normalizeUrl t.url) then .saved else .unsaved

/-! ### Restore operations

External calls are recorded in order; the environment `env : Nat → Option
Nat` gives the numeric response of the n-th call overall (window id, the
created tab's id, the created group's id, or an ignored ack), with `none`
meaning that call fails (rejects). -/

/-- One external browser call, with its arguments. -/
inductive ExtCall where
  | getWindow
  | createTab (url : String) (pinned : Bool) (windowId : Nat) (active : Bool)
  | groupCreate (tabIds : List Nat) (windowId : Nat)
  | groupUpdate (groupId : Nat) (title : String) (color : TabGroupColor) (collapsed : Bool)
deriving DecidableEq

/-- The sequential tab-creation loop (used for ungrouped tabs and for a
group's member tabs): issues one `createTab` per saved tab in order,
collecting created ids; stops at the first failure. Returns the calls
issued and, on success, the collected ids and the next call counter. -/
def createTabsSeq (env : Nat → Option Nat) (w : Nat) :
    List SavedTab → Nat → List ExtCall × Option (List Nat × Nat)
  | [], k => ([], some ([], k))
  | t :: ts, k =>
    match env k with
    | none => ([.createTab t.url t.pinned w false], none)
    | some id =>
      let rest := createTabsSeq env w ts (k + 1)
      (.createTab t.url t.pinned w false :: rest.1,
        match rest.2 with
        | none => none
        | some (ids, k2) => some (id :: ids, k2))

/-- The per-group restore procedure shared by `restoreAll` and
`restoreGroup`: create the member tabs sequentially, then one
group-creation call with the collected ids, then one metadata update. -/
def restoreGroupSeq (env : Nat → Option Nat) (w : Nat) (g : SavedGroup)
    (k : Nat) : List ExtCall × Option Nat :=
  let tabsRes := createTabsSeq env w g.tabs k
  match tabsRes.2 with
  | none => (tabsRes.1, none)
  | some (ids, k2) =>
    match env k2 with
    | none => (tabsRes.1 ++ [.groupCreate ids w], none)
    | some gid =>
      match env (k2 + 1) with
      | none =>
        (tabsRes.1 ++ [.groupCreate ids w, .groupUpdate gid g.title g.color g.collapsed], none)
      | some _ =>
        (tabsRes.1 ++ [.groupCreate ids w, .groupUpdate gid g.title g.color g.collapsed],
          some (k2 + 2))

/-- The group loop of `restoreAll`: restore each saved group in list
order, stopping at the first failure. -/
def restoreGroupsSeq (env : Nat → Option Nat) (w : Nat) :
    List SavedGroup → Nat → List ExtCall × Option Nat
  | [], k => ([], some k)
  | g :: gs, k =>
    let first := restoreGroupSeq env w g k
    match first.2 with
    | none => (first.1, none)
    | some k2 =>
      let rest := restoreGroupsSeq env w gs k2
      (first.1 ++ rest.1, rest.2)

/-- `restoreAll` from `src/lib/session.ts`: no-op success when no state
is saved; otherwise resolve the window once, create the ungrouped tabs in
order, then restore each group in order. Returns the issued calls and the
result. -/
def restoreAll (store : Option SavedState) (env : Nat → Option Nat) :
    List ExtCall × Result :=
  match store with
  | none => ([], .ok)
  | some s =>
    match env 0 with
    | none => ([.getWindow], .err "ExternalServiceError")
    | some w =>
      let ungrouped := createTabsSeq env w s.ungroupedTabs 1
      match ungrouped.2 with
      | none => (.getWindow :: ungrouped.1, .err "ExternalServiceError")
      | some (_, k1) =>
        let grouped := restoreGroupsSeq env w s.groups k1
        (.getWindow :: (ungrouped.1 ++ grouped.1),
          if grouped.2.isSome then .ok else .err "ExternalServiceError")

/-- `restoreGroup` from `src/lib/session.ts`: find the first saved group
with the given title (NotFound error if none), then run the per-group
restore procedure. -/
def restoreGroup (title : String) (store : Option SavedState)
    (env : Nat → Option Nat) : List ExtCall × Result :=
  match store.bind (fun s => s.groups.find? (fun g => g.title == title)) with
  | none => ([], .err s!"No saved group named \"{title}\"")
  | some g =>
    match env 0 with
    | none => ([.getWindow], .err "ExternalServiceError")
    | some w =>
      let run := restoreGroupSeq env w g 1
      (.getWindow :: run.1, if run.2.isSome then .ok else .err "ExternalServiceError")

/-- `restoreTab` from `src/lib/session.ts`: find the first saved
*ungrouped* tab with the given url (NotFound error if none), then resolve
the window and create that one tab. -/
def restoreTab (url : String) (store : Option SavedState)
    (env : Nat → Option Nat) : List ExtCall × Result :=
  match store.bind (fun s => s.ungroupedTabs.find? (fun t => t.url == url)) with
  | none => ([], .err s!"No saved tab with URL \"{url}\"")
  | some t =>
    match env 0 with
    | none => ([.getWindow], .err "ExternalServiceError")
    | some w =>
      match env 1 with
      | none => ([.getWindow, .createTab t.url t.pinned w false], .err "ExternalServiceError")
      | some _ => ([.getWindow, .createTab t.url t.pinned w false], .ok)

/-! ### Spec-side canonical restore trace

The following definitions follow the spec's description of the restore
call order (one flat, position-indexed enumeration of the expected
calls), to be compared against the trace the implementation produces. -/

/-- Spec-side: the expected tab-creation calls for a list of saved tabs. -/
def specTabCalls (w : Nat) (tabs : List SavedTab) : List ExtCall :=
  tabs.map (fun t => .createTab t.url t.pinned w false)

/-- Spec-side: the tab ids collected from `n` consecutive successful
creation calls starting at call counter `k`. -/
def specTabIds (env : Nat → Option Nat) (k n : Nat) : List Nat :=
  (List.range n).map (fun i => (env (k + i)).getD 0)

/-- Spec-side: the expected calls for restoring one saved group whose
first member-tab creation is call number `k`: member-tab creations in
saved order, then one group creation with the collected ids, then one
metadata update. -/
def specGroupCalls (env : Nat → Option Nat) (w : Nat) (g : SavedGroup)
    (k : Nat) : List ExtCall :=
  specTabCalls w g.tabs ++
    [.groupCreate (specTabIds env k g.tabs.length) w,
     .groupUpdate ((env (k + g.tabs.length)).getD 0) g.title g.color g.collapsed]

/-- Spec-side: the expected calls for restoring the saved groups in list
order, starting at call counter `k`. -/
def specGroupsCalls (env : Nat → Option Nat) (w : Nat) :
    List SavedGroup → Nat → List ExtCall
  | [], _ => []
  | g :: gs, k => specGroupCalls env w g k ++ specGroupsCalls env w gs (k + g.tabs.length + 2)

/-- Spec-side: the full expected `restoreAll` trace for a saved state:
one window resolution, the ungrouped-tab creations in list order, then
the per-group call sequences in list order. -/
def specRestoreTrace (env : Nat → Option Nat) (s : SavedState) : List ExtCall :=
  let w := (env 0).getD 0
  .getWindow :: (specTabCalls w s.ungroupedTabs ++
    specGroupsCalls env w s.groups (1 + s.ungroupedTabs.length))

/-! ### Properties of the title-keyed upsert and of the merge loop -/

theorem upsert_titles_of_mem {t : String} {ng : SavedGroup} {l : List SavedGroup}
    (hmem : t ∈ l.map SavedGroup.title) (hng : ng.title = t) :
    (upsertGroupByTitle t ng l).map SavedGroup.title = l.map SavedGroup.title := by
  induction l with
  | nil => simp at hmem
  | cons h rest ih =>
    by_cases hh : h.title = t
    · simp [upsertGroupByTitle, hh, hng]
    · simp only [List.map_cons, List.mem_cons, hh] at hmem
      have hmem' : t ∈ rest.map SavedGroup.title := by
        rcases hmem with h1 | h1
        · exact absurd h1.symm hh
        · exact h1
      simp [upsertGroupByTitle, hh, ih hmem']

theorem upsert_eq_append_of_not_mem {t : String} {ng : SavedGroup} {l : List SavedGroup}
    (hmem : t ∉ l.map SavedGroup.title) :
    upsertGroupByTitle t ng l = l ++ [ng] := by
  induction l with
  | nil => simp [upsertGroupByTitle]
  | cons h rest ih =>
    simp only [List.map_cons, List.mem_cons, not_or] at hmem
    have hh : h.title ≠ t := fun e => hmem.1 e.symm
    simp [upsertGroupByTitle, hh, ih hmem.2]

theorem titles_mem_upsert_self {t : String} {ng : SavedGroup} (l : List SavedGroup)
    (hng : ng.title = t) :
    t ∈ (upsertGroupByTitle t ng l).map SavedGroup.title := by
  induction l with
  | nil => simp [upsertGroupByTitle, hng]
  | cons h rest ih =>
    by_cases hh : h.title = t
    · simp [upsertGroupByTitle, hh, hng]
    · simp only [upsertGroupByTitle, beq_iff_eq, hh, if_false, List.map_cons, List.mem_cons]
      exact Or.inr ih

theorem titles_mem_upsert_of_mem {x t : String} {ng : SavedGroup} {l : List SavedGroup}
    (hx : x ∈ l.map SavedGroup.title) (hng : ng.title = t) :
    x ∈ (upsertGroupByTitle t ng l).map SavedGroup.title := by
  by_cases hmem : t ∈ l.map SavedGroup.title
  · rwa [upsert_titles_of_mem hmem hng]
  · rw [upsert_eq_append_of_not_mem hmem]
    simp only [List.map_append, List.mem_append]
    exact Or.inl hx

theorem find?_title_upsert_self {t : String} {ng : SavedGroup} (l : List SavedGroup)
    (hng : ng.title = t) :
    (upsertGroupByTitle t ng l).find? (fun x => x.title == t) = some ng := by
  induction l with
  | nil => simp [upsertGroupByTitle, List.find?, hng]
  | cons h rest ih =>
    by_cases hh : h.title = t
    · simp [upsertGroupByTitle, hh, List.find?, hng]
    · simp only [upsertGroupByTitle, beq_iff_eq, hh, if_false]
      rw [List.find?_cons_of_neg _ (by simp [hh])]
      exact ih

theorem find?_title_upsert_of_ne {s t : String} {ng : SavedGroup} (l : List SavedGroup)
    (hst : s ≠ t) (hng : ng.title = t) :
    (upsertGroupByTitle t ng l).find? (fun x => x.title == s) =
      l.find? (fun x => x.title == s) := by
  induction l with
  | nil =>
    have hts : (t == s) = false := beq_eq_false_iff_ne.mpr (Ne.symm hst)
    simp [upsertGroupByTitle, List.find?, hng, hts]
  | cons h rest ih =>
    by_cases hh : h.title = t
    · have hhs : ¬ h.title = s := fun e => hst (e.symm.trans hh)
      rw [show upsertGroupByTitle t ng (h :: rest) = ng :: rest by
        simp [upsertGroupByTitle, hh]]
      rw [List.find?_cons_of_neg _ (by simp [hng, Ne.symm hst]),
        List.find?_cons_of_neg _ (by simpa using hhs)]
    · rw [show upsertGroupByTitle t ng (h :: rest) = h :: upsertGroupByTitle t ng rest by
        simp [upsertGroupByTitle, hh]]
      by_cases hhs : h.title = s
      · rw [List.find?_cons_of_pos _ (by simpa using hhs),
          List.find?_cons_of_pos _ (by simpa using hhs)]
      · rw [List.find?_cons_of_neg _ (by simpa using hhs),
          List.find?_cons_of_neg _ (by simpa using hhs)]
        exact ih

theorem upsert_eq_self_of_find?_eq {t : String} {ng : SavedGroup} {l : List SavedGroup}
    (hfind : l.find? (fun x => x.title == t) = some ng) :
    upsertGroupByTitle t ng l = l := by
  induction l with
  | nil => simp [List.find?] at hfind
  | cons h rest ih =>
    by_cases hh : h.title = t
    · rw [List.find?_cons_of_pos _ (by simpa using hh)] at hfind
      simp only [Option.some.injEq] at hfind
      subst hfind
      simp [upsertGroupByTitle, hh]
    · rw [List.find?_cons_of_neg _ (by simpa using hh)] at hfind
      simp [upsertGroupByTitle, hh, ih hfind]

theorem upsert_upsert_same_title {t : String} {ng ng' : SavedGroup} (l : List SavedGroup)
    (hng' : ng'.title = t) :
    upsertGroupByTitle t ng (upsertGroupByTitle t ng' l) = upsertGroupByTitle t ng l := by
  induction l with
  | nil => simp [upsertGroupByTitle, hng']
  | cons h rest ih =>
    by_cases hh : h.title = t
    · simp [upsertGroupByTitle, hh, hng']
    · simp [upsertGroupByTitle, hh, ih]

theorem upsert_upsert_comm_of_mem {t₁ t₂ : String} {g₁ g₂ : SavedGroup}
    {l : List SavedGroup} (hmem : t₁ ∈ l.map SavedGroup.title) (hne : t₁ ≠ t₂)
    (hg₁ : g₁.title = t₁) (hg₂ : g₂.title = t₂) :
    upsertGroupByTitle t₂ g₂ (upsertGroupByTitle t₁ g₁ l) =
      upsertGroupByTitle t₁ g₁ (upsertGroupByTitle t₂ g₂ l) := by
  induction l with
  | nil => simp at hmem
  | cons h rest ih =>
    by_cases h1 : h.title = t₁
    · simp [upsertGroupByTitle, h1, hg₁, hne]
    · by_cases h2 : h.title = t₂
      · simp [upsertGroupByTitle, h1, h2, hg₂, hne, Ne.symm hne]
      · simp only [List.map_cons, List.mem_cons, h1] at hmem
        have hmem' : t₁ ∈ rest.map SavedGroup.title := by
          rcases hmem with e | e
          · exact absurd e.symm h1
          · exact e
        simp [upsertGroupByTitle, h1, h2, ih hmem']

theorem nodup_titles_upsert {t : String} {ng : SavedGroup} {l : List SavedGroup}
    (hl : (l.map SavedGroup.title).Nodup) (hng : ng.title = t) :
    ((upsertGroupByTitle t ng l).map SavedGroup.title).Nodup := by
  by_cases hmem : t ∈ l.map SavedGroup.title
  · rwa [upsert_titles_of_mem hmem hng]
  · rw [upsert_eq_append_of_not_mem hmem]
    simp only [List.map_append, List.map_cons, List.map_nil, hng]
    exact List.Nodup.append hl (List.nodup_singleton t) (by
      intro a ha hb
      simp only [List.mem_singleton] at hb
      exact hmem (hb ▸ ha))

theorem mergeGroups_nil (base : List SavedGroup) : mergeGroups base [] = base := rfl

theorem mergeGroups_cons (base : List SavedGroup) (f : SavedGroup) (fs : List SavedGroup) :
    mergeGroups base (f :: fs) = mergeGroups (upsertGroupByTitle f.title f base) fs := rfl

theorem mergeGroups_append (base fs gs : List SavedGroup) :
    mergeGroups base (fs ++ gs) = mergeGroups (mergeGroups base fs) gs :=
  List.foldl_append _ _ _ _

theorem titles_mem_mergeGroups_of_mem {x : String} {base : List SavedGroup}
    (fs : List SavedGroup) (hx : x ∈ base.map SavedGroup.title) :
    x ∈ (mergeGroups base fs).map SavedGroup.title := by
  induction fs generalizing base with
  | nil => exact hx
  | cons f fs ih =>
    rw [mergeGroups_cons]
    exact ih (titles_mem_upsert_of_mem hx rfl)

theorem find?_title_mergeGroups_of_forall_ne {t : String} {base : List SavedGroup}
    (fs : List SavedGroup) (hfs : ∀ f ∈ fs, f.title ≠ t) :
    (mergeGroups base fs).find? (fun x => x.title == t) =
      base.find? (fun x => x.title == t) := by
  induction fs generalizing base with
  | nil => rfl
  | cons f fs ih =>
    rw [mergeGroups_cons, ih (fun f hf => hfs f (List.mem_cons_of_mem _ hf)),
      find?_title_upsert_of_ne _ (fun e => hfs f (List.mem_cons_self f fs) e.symm) rfl]

theorem nodup_titles_mergeGroups {base : List SavedGroup} (fs : List SavedGroup)
    (hb : (base.map SavedGroup.title).Nodup) :
    ((mergeGroups base fs).map SavedGroup.title).Nodup := by
  induction fs generalizing base with
  | nil => exact hb
  | cons f fs ih =>
    rw [mergeGroups_cons]
    exact ih (nodup_titles_upsert hb rfl)

theorem mergeGroups_upsert_cancel {f : SavedGroup} (rest : List SavedGroup)
    (l : List SavedGroup) (hmem : f.title ∈ l.map SavedGroup.title)
    (hcond : (∃ g ∈ rest, g.title = f.title) ∨
      l.find? (fun x => x.title == f.title) = some f) :
    mergeGroups (upsertGroupByTitle f.title f l) rest = mergeGroups l rest := by
  induction rest generalizing l with
  | nil =>
    rcases hcond with ⟨g, hg, _⟩ | hfind
    · simp at hg
    · simpa [mergeGroups] using upsert_eq_self_of_find?_eq hfind
  | cons g gs ih =>
    rw [mergeGroups_cons, mergeGroups_cons]
    by_cases hgf : g.title = f.title
    · rw [show upsertGroupByTitle f.title f l = upsertGroupByTitle g.title f l by rw [hgf],
        upsert_upsert_same_title l (hgf ▸ rfl)]
    · rw [upsert_upsert_comm_of_mem hmem (fun e => hgf e.symm) rfl rfl]
      refine ih (upsertGroupByTitle g.title g l) (titles_mem_upsert_of_mem hmem rfl) ?_
      rcases hcond with ⟨g', hg', ht'⟩ | hfind
      · rcases List.mem_cons.mp hg' with e | e
        · exact absurd (e ▸ ht') hgf
        · exact Or.inl ⟨g', e, ht'⟩
      · exact Or.inr ((find?_title_upsert_of_ne l (fun e => hgf e.symm) rfl).trans hfind)

/-- Replaying the same fresh capture list over an already merged document
does not change it. -/
theorem mergeGroups_replay_eq (base fs : List SavedGroup) :
    mergeGroups (mergeGroups base fs) fs = mergeGroups base fs := by
  induction fs generalizing base with
  | nil => rfl
  | cons f rest ih =>
    rw [mergeGroups_cons base, mergeGroups_cons (mergeGroups (upsertGroupByTitle f.title f base) rest)]
    have hmem : f.title ∈ (mergeGroups (upsertGroupByTitle f.title f base) rest).map SavedGroup.title :=
      titles_mem_mergeGroups_of_mem rest (titles_mem_upsert_self base rfl)
    by_cases hex : ∃ g ∈ rest, g.title = f.title
    · rw [mergeGroups_upsert_cancel rest _ hmem (Or.inl hex)]
      exact ih (upsertGroupByTitle f.title f base)
    · push_neg at hex
      have hfind : (mergeGroups (upsertGroupByTitle f.title f base) rest).find?
          (fun x => x.title == f.title) = some f := by
        rw [find?_title_mergeGroups_of_forall_ne rest hex]
        exact find?_title_upsert_self base rfl
      rw [mergeGroups_upsert_cancel rest _ hmem (Or.inr hfind)]
      exact ih (upsertGroupByTitle f.title f base)

/-- C7: running the full merge twice in a row with the live tab and group
enumerations unchanged yields, after the second call, a document whose
`ungroupedTabs` and `groups` are identical to those after the first call;
only `savedAt` may differ. -/
theorem saveAll_saveAll_stable (prev : Option SavedState) (tabs : List LiveTab)
    (groups : List LiveGroup) (t1 t2 : Nat) :
    (saveAll (some (saveAll prev tabs groups t1)) tabs groups t2).ungroupedTabs =
      (saveAll prev tabs groups t1).ungroupedTabs ∧
    (saveAll (some (saveAll prev tabs groups t1)) tabs groups t2).groups =
      (saveAll prev tabs groups t1).groups :=
  ⟨rfl, mergeGroups_replay_eq _ _⟩

/-- C9: `removeTab(u)` applied twice yields the same result and stored
state as applying it once, and likewise for `removeGroup(t)`. -/
theorem remove_ops_idempotent (u t : String) (store : Option SavedState) :
    removeTab u (removeTab u store).2 = removeTab u store ∧
    removeGroup t (removeGroup t store).2 = removeGroup t store := by
  cases store with
  | none => exact ⟨rfl, rfl⟩
  | some st =>
    constructor
    · simp [removeTab, List.filter_filter]
    · simp [removeGroup, List.filter_filter]

/-! ### Frame property of the partial re-save -/

theorem upsert_getElem?_of_title_ne {t : String} {ng g : SavedGroup} :
    ∀ (l : List SavedGroup) (j : Nat), l[j]? = some g → g.title ≠ t →
      (upsertGroupByTitle t ng l)[j]? = some g
  | [], j, hget, _ => by simp at hget
  | h :: rest, 0, hget, hne => by
    simp only [List.getElem?_cons_zero, Option.some.injEq] at hget
    subst hget
    simp [upsertGroupByTitle, hne]
  | h :: rest, j + 1, hget, hne => by
    simp only [List.getElem?_cons_succ] at hget
    by_cases hh : h.title = t
    · simp [upsertGroupByTitle, hh, hget]
    · simp [upsertGroupByTitle, hh, upsert_getElem?_of_title_ne rest j hget hne]

/-- C5: a successful partial re-save of title `T` leaves every saved group
whose title differs from `T` unchanged at its original list position, and
preserves `ungroupedTabs` and `savedAt` from the previous state (empty
list and current time when no previous state existed). -/
theorem resaveGroup_frame (title : String) (liveTabs : List LiveTab)
    (liveGroups : List LiveGroup) (prev : Option SavedState) (now : Nat) (L : LiveGroup)
    (hfind : liveGroups.find? (fun g => g.title == some title) = some L) :
    (resaveGroup title liveTabs liveGroups prev now).1 = .ok ∧
    ∃ st', (resaveGroup title liveTabs liveGroups prev now).2 = some st' ∧
      (∀ (j : Nat) (g : SavedGroup),
        ((prev.map SavedState.groups).getD [])[j]? = some g → g.title ≠ title →
        st'.groups[j]? = some g) ∧
      (∀ p, prev = some p → st'.ungroupedTabs = p.ungroupedTabs ∧ st'.savedAt = p.savedAt) ∧
      (prev = none → st'.ungroupedTabs = [] ∧ st'.savedAt = now) := by
  unfold resaveGroup
  rw [hfind]
  refine ⟨rfl, _, rfl, ?_, ?_, ?_⟩
  · intro j g hget hne
    exact upsert_getElem?_of_title_ne _ j hget hne
  · intro p hp
    subst hp
    exact ⟨rfl, rfl⟩
  · intro hp
    subst hp
    exact ⟨rfl, rfl⟩

/-- Witness for `resaveGroup_frame` at a concrete input. -/
theorem resaveGroup_frame_witness :
    (resaveGroup "A" [] [⟨1, some "A", TabGroupColor.red, false⟩]
        (some ⟨3, [], [⟨"B", TabGroupColor.blue, false, []⟩]⟩) 9).1 = .ok ∧
    ∃ st', (resaveGroup "A" [] [⟨1, some "A", TabGroupColor.red, false⟩]
        (some ⟨3, [], [⟨"B", TabGroupColor.blue, false, []⟩]⟩) 9).2 = some st' ∧
      (∀ (j : Nat) (g : SavedGroup),
        (((some ⟨3, [], [⟨"B", TabGroupColor.blue, false, []⟩]⟩ :
            Option SavedState).map SavedState.groups).getD [])[j]? = some g →
        g.title ≠ "A" → st'.groups[j]? = some g) ∧
      (∀ p, (some ⟨3, [], [⟨"B", TabGroupColor.blue, false, []⟩]⟩ :
          Option SavedState) = some p →
        st'.ungroupedTabs = p.ungroupedTabs ∧ st'.savedAt = p.savedAt) ∧
      ((some ⟨3, [], [⟨"B", TabGroupColor.blue, false, []⟩]⟩ :
          Option SavedState) = none →
        st'.ungroupedTabs = [] ∧ st'.savedAt = 9) :=
  resaveGroup_frame "A" [] [⟨1, some "A", TabGroupColor.red, false⟩]
    (some ⟨3, [], [⟨"B", TabGroupColor.blue, false, []⟩]⟩) 9
    ⟨1, some "A", TabGroupColor.red, false⟩ rfl

/-- C6: missing-target policy. The remove operations succeed and leave
the stored state unchanged when their target is absent (or no state
exists), whereas `restoreGroup`, `restoreTab` and `resaveGroup` return an
explicit NotFound error when their target title/url is absent (for
`resaveGroup`, absent from the live group enumeration). -/
theorem missing_target_policy :
    (∀ t store, (∀ st, store = some st → ∀ g ∈ st.groups, g.title ≠ t) →
        removeGroup t store = (.ok, store)) ∧
    (∀ u store, (∀ st, store = some st → ∀ tb ∈ st.ungroupedTabs, tb.url ≠ u) →
        removeTab u store = (.ok, store)) ∧
    (∀ t store env, (∀ st, store = some st → ∀ g ∈ st.groups, g.title ≠ t) →
        restoreGroup t store env = ([], .err s!"No saved group named \"{t}\"")) ∧
    (∀ u store env, (∀ st, store = some st → ∀ tb ∈ st.ungroupedTabs, tb.url ≠ u) →
        restoreTab u store env = ([], .err s!"No saved tab with URL \"{u}\"")) ∧
    (∀ t lt lg prev now, (∀ g ∈ lg, g.title ≠ some t) →
        resaveGroup t lt lg prev now = (.err s!"No open group named \"{t}\"", prev)) := by
  refine ⟨?_, ?_, ?_, ?_, ?_⟩
  · intro t store h
    cases store with
    | none => rfl
    | some st =>
      have : st.groups.filter (fun g => !(g.title == t)) = st.groups :=
        List.filter_eq_self.mpr (fun g hg => by simp [h st rfl g hg])
      simp [removeGroup, this]
  · intro u store h
    cases store with
    | none => rfl
    | some st =>
      have : st.ungroupedTabs.filter (fun tb => !(tb.url == u)) = st.ungroupedTabs :=
        List.filter_eq_self.mpr (fun tb htb => by simp [h st rfl tb htb])
      simp [removeTab, this]
  · intro t store env h
    have hn : store.bind (fun s => s.groups.find? (fun g => g.title == t)) = none := by
      cases store with
      | none => rfl
      | some st =>
        simp only [Option.some_bind]
        exact List.find?_eq_none.mpr (fun g hg => by simp [h st rfl g hg])
    simp [restoreGroup, hn]
  · intro u store env h
    have hn : store.bind (fun s => s.ungroupedTabs.find? (fun tb => tb.url == u)) = none := by
      cases store with
      | none => rfl
      | some st =>
        simp only [Option.some_bind]
        exact List.find?_eq_none.mpr (fun tb htb => by simp [h st rfl tb htb])
    simp [restoreTab, hn]
  · intro t lt lg prev now h
    have hn : lg.find? (fun g => g.title == some t) = none :=
      List.find?_eq_none.mpr (fun g hg => by simp [h g hg])
    simp [resaveGroup, hn]

/-- Witness for `missing_target_policy` at concrete inputs. -/
theorem missing_target_policy_witness :
    removeGroup "X" (some ⟨1, [], [⟨"B", TabGroupColor.blue, false, []⟩]⟩) =
      (.ok, some ⟨1, [], [⟨"B", TabGroupColor.blue, false, []⟩]⟩) ∧
    removeTab "x" none = (.ok, none) ∧
    restoreGroup "X" (some ⟨1, [], []⟩) (fun _ => some 0) =
      ([], .err "No saved group named \"X\"") ∧
    restoreTab "x" (some ⟨1, [], []⟩) (fun _ => some 0) =
      ([], .err "No saved tab with URL \"x\"") ∧
    resaveGroup "X" [] [] none 7 = (.err "No open group named \"X\"", none) := by
  refine ⟨?_, ?_, ?_, ?_, ?_⟩
  · exact missing_target_policy.1 "X" _
      (by rintro st hst g hg
          rw [Option.some.injEq] at hst
          subst hst
          rw [List.mem_singleton] at hg
          subst hg
          decide)
  · exact missing_target_policy.2.1 "x" none (fun st hst => nomatch hst)
  · exact missing_target_policy.2.2.1 "X" _ _
      (by rintro st hst g hg
          rw [Option.some.injEq] at hst
          subst hst
          exact absurd hg (List.not_mem_nil g))
  · exact missing_target_policy.2.2.2.1 "x" _ _
      (by rintro st hst tb htb
          rw [Option.some.injEq] at hst
          subst hst
          exact absurd htb (List.not_mem_nil tb))
  · exact missing_target_policy.2.2.2.2 "X" [] [] none 7
      (fun g hg => absurd hg (List.not_mem_nil g))

/-! ### Characterization of the full merge under the unique-title invariant -/

/-- Spec-side description of the full-merge reconciliation of the groups
list: the previous entries, each replaced in place by the freshly
captured group sharing its title when one exists, followed by the fresh
captures whose title had no previous entry, in capture order. -/
def specMergedGroups (base fresh : List SavedGroup) : List SavedGroup :=
  base.map (fun g => (fresh.find? (fun f => f.title == g.title)).getD g) ++
    fresh.filter (fun f => base.all (fun g => !(g.title == f.title)))

theorem map_find?_getD_cons_of_ne (f : SavedGroup) (fs : List SavedGroup)
    (base : List SavedGroup) (hne : ∀ g ∈ base, g.title ≠ f.title) :
    base.map (fun g => ((f :: fs).find? (fun x => x.title == g.title)).getD g) =
      base.map (fun g => (fs.find? (fun x => x.title == g.title)).getD g) := by
  apply List.map_congr_left
  intro g hg
  rw [List.find?_cons_of_neg _ (by simp [Ne.symm (hne g hg)])]

theorem map_gamma_upsert (f : SavedGroup) (fs : List SavedGroup) :
    ∀ (base : List SavedGroup), (base.map SavedGroup.title).Nodup →
      f.title ∈ base.map SavedGroup.title →
      fs.find? (fun x => x.title == f.title) = none →
      (upsertGroupByTitle f.title f base).map
          (fun g => (fs.find? (fun x => x.title == g.title)).getD g) =
        base.map (fun g => ((f :: fs).find? (fun x => x.title == g.title)).getD g)
  | [], _, hmem, _ => by simp at hmem
  | b :: bs, hnd, hmem, hnone => by
    simp only [List.map_cons, List.nodup_cons] at hnd
    by_cases hbf : b.title = f.title
    · rw [show upsertGroupByTitle f.title f (b :: bs) = f :: bs by
        simp [upsertGroupByTitle, hbf]]
      simp only [List.map_cons]
      rw [hnone, List.find?_cons_of_pos _ (by simp [hbf])]
      have hne : ∀ g ∈ bs, g.title ≠ f.title := by
        intro g hg e
        exact hnd.1 (hbf ▸ e ▸ List.mem_map_of_mem SavedGroup.title hg)
      rw [map_find?_getD_cons_of_ne f fs bs hne]
      rfl
    · rw [show upsertGroupByTitle f.title f (b :: bs)
          = b :: upsertGroupByTitle f.title f bs by
        simp [upsertGroupByTitle, hbf]]
      simp only [List.map_cons]
      have hmem' : f.title ∈ bs.map SavedGroup.title := by
        rcases List.mem_cons.mp hmem with e | e
        · exact absurd e.symm hbf
        · exact e
      rw [map_gamma_upsert f fs bs hnd.2 hmem' hnone,
        List.find?_cons_of_neg _ (by simp; exact fun e => hbf e.symm)]

theorem all_title_ne (L : List SavedGroup) (s : String) :
    L.all (fun g => !(g.title == s)) = (L.map SavedGroup.title).all (fun x => !(x == s)) := by
  induction L with
  | nil => rfl
  | cons h t ih => simp [ih]

theorem mergeGroups_eq_spec (fresh : List SavedGroup) :
    ∀ base, (base.map SavedGroup.title).Nodup → (fresh.map SavedGroup.title).Nodup →
      mergeGroups base fresh = specMergedGroups base fresh := by
  induction fresh with
  | nil =>
    intro base _ _
    simp [mergeGroups, specMergedGroups]
  | cons f fs ih =>
    intro base hb hf
    simp only [List.map_cons, List.nodup_cons] at hf
    have hft : f.title ∉ fs.map SavedGroup.title := hf.1
    have hnone : fs.find? (fun x => x.title == f.title) = none :=
      List.find?_eq_none.mpr (fun x hx => by
        simp only [beq_iff_eq]
        exact fun e => hft (e ▸ List.mem_map_of_mem SavedGroup.title hx))
    rw [mergeGroups_cons, ih _ (nodup_titles_upsert hb rfl) hf.2]
    by_cases hmem : f.title ∈ base.map SavedGroup.title
    · unfold specMergedGroups
      rw [map_gamma_upsert f fs base hb hmem hnone]
      have hfilter : fs.filter (fun x => (upsertGroupByTitle f.title f base).all
            (fun g => !(g.title == x.title)))
          = fs.filter (fun x => base.all (fun g => !(g.title == x.title))) := by
        apply List.filter_congr
        intro x _
        rw [all_title_ne, all_title_ne, upsert_titles_of_mem hmem rfl]
      rw [hfilter]
      have hfail : base.all (fun g => !(g.title == f.title)) = false := by
        rw [List.all_eq_false]
        obtain ⟨g, hg, hgt⟩ := List.mem_map.mp hmem
        exact ⟨g, hg, by simp [hgt]⟩
      rw [List.filter_cons, hfail]
      simp
    · unfold specMergedGroups
      rw [upsert_eq_append_of_not_mem hmem, List.map_append]
      have hne : ∀ g ∈ base, g.title ≠ f.title := fun g hg e =>
        hmem (e ▸ List.mem_map_of_mem SavedGroup.title hg)
      rw [show ([f] : List SavedGroup).map
            (fun g => (fs.find? (fun x => x.title == g.title)).getD g) = [f] by
          simp [hnone]]
      rw [← map_find?_getD_cons_of_ne f fs base hne]
      have hfilter2 : fs.filter (fun x => (base ++ [f]).all (fun g => !(g.title == x.title)))
          = fs.filter (fun x => base.all (fun g => !(g.title == x.title))) := by
        apply List.filter_congr
        intro x hx
        rw [List.all_append]
        have hxf : ([f] : List SavedGroup).all (fun g => !(g.title == x.title)) = true := by
          simp only [List.all_cons, List.all_nil, Bool.and_true]
          simp only [Bool.not_eq_eq_eq_not, Bool.not_true, beq_eq_false_iff_ne]
          exact fun e => hft (e ▸ List.mem_map_of_mem SavedGroup.title hx)
        rw [hxf, Bool.and_true]
      rw [hfilter2]
      have hpass : base.all (fun g => !(g.title == f.title)) = true := by
        rw [List.all_eq_true]
        intro g hg
        simp [hne g hg]
      rw [List.filter_cons, hpass]
      simp

/-- C2: full merge replaces `ungroupedTabs` wholesale with the freshly
captured ungrouped list, and merges `groups` by title: each previous
entry sharing a title with a fresh capture is replaced in place at its
original position by that capture, previous entries with no live
counterpart are unchanged, and fresh captures whose title had no
previous entry are appended at the end in capture order (stated under
the documented unique-title invariant for the previous and the fresh
groups). -/
theorem saveAll_merge_spec (prev : Option SavedState) (tabs : List LiveTab)
    (groups : List LiveGroup) (now : Nat)
    (hb : (((prev.map SavedState.groups).getD []).map SavedGroup.title).Nodup)
    (hf : ((groups.map (captureGroup tabs)).map SavedGroup.title).Nodup) :
    (saveAll prev tabs groups now).ungroupedTabs = freshUngroupedTabs tabs ∧
    (saveAll prev tabs groups now).groups =
      specMergedGroups ((prev.map SavedState.groups).getD [])
        (groups.map (captureGroup tabs)) :=
  ⟨rfl, mergeGroups_eq_spec _ _ hb hf⟩

/-- Witness for `saveAll_merge_spec` at a concrete input. -/
theorem saveAll_merge_spec_witness :
    (saveAll (some ⟨0, [], [⟨"A", TabGroupColor.red, false, []⟩]⟩)
        [⟨1, some "u", none, true, 0, 5⟩] [⟨5, some "A", TabGroupColor.blue, true⟩]
        3).ungroupedTabs = freshUngroupedTabs [⟨1, some "u", none, true, 0, 5⟩] ∧
    (saveAll (some ⟨0, [], [⟨"A", TabGroupColor.red, false, []⟩]⟩)
        [⟨1, some "u", none, true, 0, 5⟩] [⟨5, some "A", TabGroupColor.blue, true⟩]
        3).groups =
      specMergedGroups [⟨"A", TabGroupColor.red, false, []⟩]
        ([⟨5, some "A", TabGroupColor.blue, true⟩].map
          (captureGroup [⟨1, some "u", none, true, 0, 5⟩])) :=
  saveAll_merge_spec (some ⟨0, [], [⟨"A", TabGroupColor.red, false, []⟩]⟩)
    [⟨1, some "u", none, true, 0, 5⟩] [⟨5, some "A", TabGroupColor.blue, true⟩] 3
    (by decide) (by decide)

/-! ### Duplicate live titles: last capture wins -/

theorem titles_mem_mergeGroups_of_fresh {t : String} {fresh : List SavedGroup} :
    ∀ base, (∃ f ∈ fresh, f.title = t) →
      t ∈ (mergeGroups base fresh).map SavedGroup.title := by
  induction fresh with
  | nil =>
    intro base h
    obtain ⟨f, hf, _⟩ := h
    exact absurd hf (List.not_mem_nil f)
  | cons f fs ih =>
    intro base h
    rw [mergeGroups_cons]
    obtain ⟨f', hf', ht'⟩ := h
    rcases List.mem_cons.mp hf' with rfl | hmem
    · exact titles_mem_mergeGroups_of_mem fs (ht' ▸ titles_mem_upsert_self base rfl)
    · exact ih _ ⟨f', hmem, ht'⟩

theorem countP_title_eq_count_titles (l : List SavedGroup) (t : String) :
    l.countP (fun x => x.title == t) = (l.map SavedGroup.title).count t :=
  ((List.count_eq_countP t (l.map SavedGroup.title)).trans
    (List.countP_map (fun x => x == t) SavedGroup.title l)).symm

theorem countP_title_mergeGroups_eq_one (base fresh : List SavedGroup) (t : String)
    (hb : (base.map SavedGroup.title).Nodup) (hmem : ∃ f ∈ fresh, f.title = t) :
    (mergeGroups base fresh).countP (fun x => x.title == t) = 1 := by
  have hnd := nodup_titles_mergeGroups fresh hb
  have hm : t ∈ (mergeGroups base fresh).map SavedGroup.title :=
    titles_mem_mergeGroups_of_fresh base hmem
  rw [countP_title_eq_count_titles]
  exact Nat.le_antisymm (List.nodup_iff_count_le_one.mp hnd t)
    (Nat.succ_le_of_lt (List.count_pos_iff.mpr hm))

theorem find?_title_mergeGroups_last (t : String) (fresh : List SavedGroup) :
    ∀ base, (mergeGroups base fresh).find? (fun x => x.title == t) =
      (fresh.reverse.find? (fun x => x.title == t)).or
        (base.find? (fun x => x.title == t)) := by
  induction fresh with
  | nil =>
    intro base
    simp [mergeGroups]
  | cons f fs ih =>
    intro base
    rw [mergeGroups_cons, ih, List.reverse_cons, List.find?_append]
    cases hrev : fs.reverse.find? (fun x => x.title == t) with
    | some g => rfl
    | none =>
      rw [Option.none_or, Option.none_or]
      by_cases hft : f.title = t
      · subst hft
        rw [show ([f] : List SavedGroup).find? (fun x => x.title == f.title) = some f by
          simp]
        rw [find?_title_upsert_self base rfl]
        rfl
      · rw [show ([f] : List SavedGroup).find? (fun x => x.title == t) = none by
          simp [hft]]
        rw [find?_title_upsert_of_ne base (Ne.symm hft) rfl, Option.none_or]

/-- C10: when the live group enumeration contains one or more groups
sharing a coerced title `t`, full merge stores exactly one saved group
under `t`, and that entry is the capture of the last such live group in
enumeration order (stated under the unique-title invariant for the
previous state's groups). -/
theorem saveAll_duplicate_titles_last_wins (prev : Option SavedState)
    (tabs : List LiveTab) (groups : List LiveGroup) (now : Nat) (t : String)
    (gl : LiveGroup)
    (hb : (((prev.map SavedState.groups).getD []).map SavedGroup.title).Nodup)
    (hlast : groups.reverse.find? (fun g => g.title.getD "" == t) = some gl) :
    (saveAll prev tabs groups now).groups.countP (fun x => x.title == t) = 1 ∧
    (saveAll prev tabs groups now).groups.find? (fun x => x.title == t) =
      some (captureGroup tabs gl) := by
  have hrev : (groups.map (captureGroup tabs)).reverse.find? (fun x => x.title == t)
      = some (captureGroup tabs gl) := by
    rw [← List.map_reverse, List.find?_map]
    rw [show ((fun x : SavedGroup => x.title == t) ∘ captureGroup tabs)
        = (fun g : LiveGroup => g.title.getD "" == t) from rfl]
    rw [hlast]
    rfl
  constructor
  · apply countP_title_mergeGroups_eq_one _ _ _ hb
    refine ⟨captureGroup tabs gl, ?_, ?_⟩
    · exact (List.mem_reverse).mp (List.mem_of_find?_eq_some hrev)
    · simpa using List.find?_some hrev
  · show (mergeGroups _ _).find? _ = _
    rw [find?_title_mergeGroups_last, hrev]
    rfl

/-- Witness for `saveAll_duplicate_titles_last_wins` at a concrete input
with two live groups sharing a title. -/
theorem saveAll_duplicate_titles_last_wins_witness :
    (saveAll none [] [⟨5, some "A", TabGroupColor.blue, true⟩,
        ⟨6, some "A", TabGroupColor.red, false⟩] 3).groups.countP
      (fun x => x.title == "A") = 1 ∧
    (saveAll none [] [⟨5, some "A", TabGroupColor.blue, true⟩,
        ⟨6, some "A", TabGroupColor.red, false⟩] 3).groups.find?
      (fun x => x.title == "A") =
      some (captureGroup [] ⟨6, some "A", TabGroupColor.red, false⟩) :=
  saveAll_duplicate_titles_last_wins none []
    [⟨5, some "A", TabGroupColor.blue, true⟩, ⟨6, some "A", TabGroupColor.red, false⟩]
    3 "A" ⟨6, some "A", TabGroupColor.red, false⟩ (by decide) (by decide)

/-! ### The ungrouped-url uniqueness invariant -/

/-- The documented invariant: no two entries of `ungroupedTabs` share a
`url`. -/
def UngroupedUrlsNodup (s : SavedState) : Prop :=
  (s.ungroupedTabs.map SavedTab.url).Nodup

theorem upsertTab_urls_of_mem {u : String} {tab : SavedTab} {l : List SavedTab}
    (hmem : u ∈ l.map SavedTab.url) (ht : tab.url = u) :
    (upsertTabByUrl u tab l).map SavedTab.url = l.map SavedTab.url := by
  induction l with
  | nil => simp at hmem
  | cons h rest ih =>
    by_cases hh : h.url = u
    · simp [upsertTabByUrl, hh, ht]
    · simp only [List.map_cons, List.mem_cons, hh] at hmem
      have hmem' : u ∈ rest.map SavedTab.url := by
        rcases hmem with e | e
        · exact absurd e.symm hh
        · exact e
      simp [upsertTabByUrl, hh, ih hmem']

theorem upsertTab_eq_append_of_not_mem {u : String} {tab : SavedTab} {l : List SavedTab}
    (hmem : u ∉ l.map SavedTab.url) :
    upsertTabByUrl u tab l = l ++ [tab] := by
  induction l with
  | nil => simp [upsertTabByUrl]
  | cons h rest ih =>
    simp only [List.map_cons, List.mem_cons, not_or] at hmem
    have hh : h.url ≠ u := fun e => hmem.1 e.symm
    simp [upsertTabByUrl, hh, ih hmem.2]

theorem nodup_urls_upsertTab {u : String} {tab : SavedTab} {l : List SavedTab}
    (hl : (l.map SavedTab.url).Nodup) (ht : tab.url = u) :
    ((upsertTabByUrl u tab l).map SavedTab.url).Nodup := by
  by_cases hmem : u ∈ l.map SavedTab.url
  · rwa [upsertTab_urls_of_mem hmem ht]
  · rw [upsertTab_eq_append_of_not_mem hmem]
    simp only [List.map_append, List.map_cons, List.map_nil, ht]
    exact List.Nodup.append hl (List.nodup_singleton u) (by
      intro a ha hb
      simp only [List.mem_singleton] at hb
      exact hmem (hb ▸ ha))

/-- C1 counterexample: `saveAll` copies the fresh ungrouped capture
verbatim, so when the live enumeration reports two ungrouped tabs with
the same url, the written document violates the uniqueness invariant even
though the previous state satisfied it. -/
theorem saveAll_duplicate_url_counterexample :
    UngroupedUrlsNodup ⟨0, [], []⟩ ∧
    ¬ UngroupedUrlsNodup
      (saveAll (some ⟨0, [], []⟩)
        [⟨1, some "a", none, false, 0, -1⟩, ⟨2, some "a", none, false, 1, -1⟩] [] 1) := by
  constructor
  · simp [UngroupedUrlsNodup]
  · simp only [UngroupedUrlsNodup]
    decide

/-- C1 (amended): every write operation except the full merge preserves
the ungrouped-url uniqueness invariant; the full merge preserves it
exactly when the freshly captured ungrouped list itself carries no
duplicate url (it copies that list verbatim, without de-duplication). -/
theorem write_ops_ungrouped_urls_nodup :
    (∀ prev tabs groups now, ((freshUngroupedTabs tabs).map SavedTab.url).Nodup →
        UngroupedUrlsNodup (saveAll prev tabs groups now)) ∧
    (∀ title lt lg prev now st', (∀ p, prev = some p → UngroupedUrlsNodup p) →
        (resaveGroup title lt lg prev now).2 = some st' → UngroupedUrlsNodup st') ∧
    (∀ u ttl pinned store now st', (∀ p, store = some p → UngroupedUrlsNodup p) →
        (saveTab u ttl pinned store now).2 = some st' → UngroupedUrlsNodup st') ∧
    (∀ u store st', (∀ p, store = some p → UngroupedUrlsNodup p) →
        (removeTab u store).2 = some st' → UngroupedUrlsNodup st') ∧
    (∀ t store st', (∀ p, store = some p → UngroupedUrlsNodup p) →
        (removeGroup t store).2 = some st' → UngroupedUrlsNodup st') := by
  refine ⟨?_, ?_, ?_, ?_, ?_⟩
  · intro prev tabs groups now h
    exact h
  · intro title lt lg prev now st' hprev h
    unfold resaveGroup at h
    cases hfind : lg.find? (fun g => g.title == some title) with
    | none =>
      rw [hfind] at h
      exact hprev st' h
    | some L =>
      rw [hfind] at h
      simp only [Option.some.injEq] at h
      subst h
      cases prev with
      | none => exact List.nodup_nil
      | some p => exact hprev p rfl
  · intro u ttl pinned store now st' hstore h
    unfold saveTab at h
    simp only [Option.some.injEq] at h
    subst h
    cases store with
    | none =>
      exact nodup_urls_upsertTab List.nodup_nil rfl
    | some p =>
      exact nodup_urls_upsertTab (hstore p rfl) rfl
  · intro u store st' hstore h
    cases store with
    | none => simp [removeTab] at h
    | some p =>
      simp only [removeTab, Option.some.injEq] at h
      subst h
      exact List.Nodup.sublist
        (List.Sublist.map SavedTab.url (List.filter_sublist p.ungroupedTabs))
        (hstore p rfl)
  · intro t store st' hstore h
    cases store with
    | none => simp [removeGroup] at h
    | some p =>
      simp only [removeGroup, Option.some.injEq] at h
      subst h
      exact hstore p rfl

/-- Witness for `write_ops_ungrouped_urls_nodup` at concrete inputs. -/
theorem write_ops_ungrouped_urls_nodup_witness :
    UngroupedUrlsNodup (saveAll none [⟨1, some "a", none, false, 0, -1⟩] [] 1) ∧
    UngroupedUrlsNodup ⟨1, [⟨"b", "t", false, 0⟩],
      [⟨"A", TabGroupColor.red, false, []⟩]⟩ ∧
    UngroupedUrlsNodup ⟨0, [⟨"u", "t", true, 0⟩], []⟩ := by
  refine ⟨?_, ?_, ?_⟩
  · exact write_ops_ungrouped_urls_nodup.1 none [⟨1, some "a", none, false, 0, -1⟩] [] 1
      (by decide)
  · exact write_ops_ungrouped_urls_nodup.2.1 "A" [] [⟨1, some "A", TabGroupColor.red, false⟩]
      (some ⟨1, [⟨"b", "t", false, 0⟩], []⟩) 2
      ⟨1, [⟨"b", "t", false, 0⟩], [⟨"A", TabGroupColor.red, false, []⟩]⟩
      (by rintro p hp
          rw [Option.some.injEq] at hp
          subst hp
          show (List.map SavedTab.url _).Nodup
          decide)
      (by decide)
  · exact write_ops_ungrouped_urls_nodup.2.2.1 "u" "t" true none 0
      ⟨0, [⟨"u", "t", true, 0⟩], []⟩ (fun p hp => nomatch hp) (by decide)

/-! ### The sync classification law -/

theorem zip_self_fst_eq_snd : ∀ (l : List String), ∀ p ∈ l.zip l, p.1 = p.2
  | [], p, hp => absurd hp (List.not_mem_nil p)
  | x :: l, p, hp => by
    rw [List.zip_cons_cons] at hp
    rcases List.mem_cons.mp hp with rfl | hm
    · rfl
    · exact zip_self_fst_eq_snd l p hm

theorem urlsMatch_self (l : List String) : urlsMatch l l = true := by
  unfold urlsMatch
  rw [Bool.and_eq_true]
  constructor
  · simp
  · rw [List.all_eq_true]
    intro p hp
    simp [zip_self_fst_eq_snd l p hp]

theorem urlsMatch_iff : ∀ (l r : List String), urlsMatch l r = true ↔ l = r
  | [], [] => by simp [urlsMatch]
  | [], y :: r => by simp [urlsMatch]
  | x :: l, [] => by simp [urlsMatch]
  | x :: l, y :: r => by
    have ih := urlsMatch_iff l r
    constructor
    · intro h
      simp only [urlsMatch, List.length_cons, List.zip_cons_cons, List.all_cons,
        Bool.and_eq_true, beq_iff_eq] at h
      obtain ⟨hlen, hxy, hrest⟩ := h
      have hl : l = r := ih.mp (by
        simp only [urlsMatch, Bool.and_eq_true, beq_iff_eq]
        exact ⟨Nat.succ_injective hlen, hrest⟩)
      rw [hxy, hl]
    · intro h
      rw [← h]
      exact urlsMatch_self (x :: l)

theorem mem_dedupFirst {x : String} : ∀ {l : List String}, x ∈ dedupFirst l ↔ x ∈ l
  | [] => Iff.rfl
  | y :: l => by
    simp only [dedupFirst, List.mem_cons, List.mem_filter]
    constructor
    · rintro (rfl | ⟨hm, _⟩)
      · exact Or.inl rfl
      · exact Or.inr (mem_dedupFirst.mp hm)
    · rintro (rfl | hm)
      · exact Or.inl rfl
      · by_cases hxy : x = y
        · exact Or.inl hxy
        · refine Or.inr ⟨mem_dedupFirst.mpr hm, ?_⟩
          simp [hxy]

theorem nodup_dedupFirst : ∀ (l : List String), (dedupFirst l).Nodup
  | [] => List.nodup_nil
  | y :: l => by
    simp only [dedupFirst, List.nodup_cons]
    constructor
    · intro hmem
      have := (List.mem_filter.mp hmem).2
      simp at this
    · exact List.Nodup.filter _ (nodup_dedupFirst l)

theorem mem_uniqueSortedUrls {x : String} (l : List String) :
    x ∈ uniqueSortedUrls l ↔ x ∈ l :=
  ((List.perm_insertionSort _ _).mem_iff).trans mem_dedupFirst

theorem nodup_uniqueSortedUrls (l : List String) : (uniqueSortedUrls l).Nodup :=
  ((List.perm_insertionSort _ _).nodup_iff).mpr (nodup_dedupFirst l)

theorem sorted_uniqueSortedUrls (l : List String) :
    List.Sorted (fun a b : String => a ≤ b) (uniqueSortedUrls l) :=
  List.sorted_insertionSort _ _

/-- The canonical-form property of `uniqueSortedUrls`: two url lists have
the same de-duplicated url set exactly when their sorted de-duplicated
forms are equal. -/
theorem uniqueSortedUrls_eq_iff (A B : List String) :
    uniqueSortedUrls A = uniqueSortedUrls B ↔ (∀ u, u ∈ A ↔ u ∈ B) := by
  constructor
  · intro h u
    rw [← mem_uniqueSortedUrls (x := u) A, h, mem_uniqueSortedUrls]
  · intro h
    refine List.eq_of_perm_of_sorted ?_ (sorted_uniqueSortedUrls A) (sorted_uniqueSortedUrls B)
    refine (List.perm_ext_iff_of_nodup (nodup_uniqueSortedUrls A)
      (nodup_uniqueSortedUrls B)).mpr ?_
    intro u
    rw [mem_uniqueSortedUrls, mem_uniqueSortedUrls]
    exact h u

theorem savedGroupByTitle_acc_of_forall_ne (t : String) :
    ∀ (gs : List SavedGroup) (acc : Option SavedGroup), (∀ g ∈ gs, g.title ≠ t) →
      gs.foldl (fun a g => if g.title == t then some g else a) acc = acc
  | [], _, _ => rfl
  | g :: gs, acc, h => by
    have hg : ¬ g.title = t := h g (List.mem_cons_self g gs)
    simp only [List.foldl_cons]
    rw [if_neg (by simp [hg])]
    exact savedGroupByTitle_acc_of_forall_ne t gs acc
      (fun g' hg' => h g' (List.mem_cons_of_mem _ hg'))

theorem savedGroupByTitle_none (gs : List SavedGroup) (t : String)
    (h : ∀ g ∈ gs, g.title ≠ t) : savedGroupByTitle gs t = none :=
  savedGroupByTitle_acc_of_forall_ne t gs none h

theorem savedGroupByTitle_unique (t : String) :
    ∀ (gs : List SavedGroup), (gs.map SavedGroup.title).Nodup →
      ∀ S ∈ gs, S.title = t → savedGroupByTitle gs t = some S := by
  intro gs
  induction gs with
  | nil =>
    intro _ S hS _
    exact absurd hS (List.not_mem_nil S)
  | cons g rest ih =>
    intro hnd S hS hSt
    simp only [List.map_cons, List.nodup_cons] at hnd
    show (g :: rest).foldl (fun a g => if g.title == t then some g else a) none = some S
    rcases List.mem_cons.mp hS with rfl | hmem
    · simp only [List.foldl_cons]
      rw [if_pos (by simp [hSt])]
      apply savedGroupByTitle_acc_of_forall_ne
      intro g' hg' e
      exact hnd.1 (hSt ▸ e ▸ List.mem_map_of_mem SavedGroup.title hg')
    · have hgt : ¬ g.title = t := by
        intro e
        exact hnd.1 ((e.trans hSt.symm) ▸ List.mem_map_of_mem SavedGroup.title hmem)
      simp only [List.foldl_cons]
      rw [if_neg (by simp [hgt])]
      exact ih hnd.2 S hmem hSt

/-- C3: the sync classification law. For a live group with a same-titled
saved group `S` (under the unique-title invariant), the status is `saved`
exactly when the de-duplicated url set of the live member tabs equals the
de-duplicated url set of `S`'s tabs, and `out-of-sync` exactly otherwise;
with no same-titled saved group, the status is `unsaved`. For a live
ungrouped tab, the status is `saved` exactly when its normalized url is
among the saved ungrouped urls, and `unsaved` exactly otherwise. -/
theorem sync_status_classification :
    (∀ (state : Option SavedState) (tabs : List LiveTab) (g : LiveGroup) (S : SavedGroup),
      (((state.map SavedState.groups).getD []).map SavedGroup.title).Nodup →
      S ∈ (state.map SavedState.groups).getD [] → S.title = g.title.getD "" →
      ((groupSyncStatus state tabs g = .saved ↔
          (∀ u, u ∈ (liveGroupTabs tabs g).map (fun tb => normalizeUrl tb.url) ↔
            u ∈ S.tabs.map SavedTab.url)) ∧
       (groupSyncStatus state tabs g = .outOfSync ↔
          ¬ (∀ u, u ∈ (liveGroupTabs tabs g).map (fun tb => normalizeUrl tb.url) ↔
            u ∈ S.tabs.map SavedTab.url)))) ∧
    (∀ (state : Option SavedState) (tabs : List LiveTab) (g : LiveGroup),
      (∀ S ∈ (state.map SavedState.groups).getD [], S.title ≠ g.title.getD "") →
      groupSyncStatus state tabs g = .unsaved) ∧
    (∀ (state : Option SavedState) (t : LiveTab),
      (tabSyncStatus state t = .saved ↔
        normalizeUrl t.url ∈ ((state.map SavedState.ungroupedTabs).getD []).map SavedTab.url) ∧
      (tabSyncStatus state t = .unsaved ↔
        normalizeUrl t.url ∉
          ((state.map SavedState.ungroupedTabs).getD []).map SavedTab.url)) := by
  refine ⟨?_, ?_, ?_⟩
  · intro state tabs g S hnd hS hSt
    have hfound : savedGroupByTitle ((state.map SavedState.groups).getD [])
        (g.title.getD "") = some S :=
      savedGroupByTitle_unique _ _ hnd S hS hSt
    simp only [groupSyncStatus, hfound]
    have key : urlsMatch
        (uniqueSortedUrls ((liveGroupTabs tabs g).map (fun tb => normalizeUrl tb.url)))
        (uniqueSortedUrls (S.tabs.map SavedTab.url)) = true ↔
        (∀ u, u ∈ (liveGroupTabs tabs g).map (fun tb => normalizeUrl tb.url) ↔
          u ∈ S.tabs.map SavedTab.url) :=
      (urlsMatch_iff _ _).trans (uniqueSortedUrls_eq_iff _ _)
    by_cases hm : urlsMatch
        (uniqueSortedUrls ((liveGroupTabs tabs g).map (fun tb => normalizeUrl tb.url)))
        (uniqueSortedUrls (S.tabs.map SavedTab.url)) = true
    · rw [if_pos hm]
      exact ⟨⟨fun _ => key.mp hm, fun _ => rfl⟩,
        ⟨fun h => absurd h (by decide), fun hcon => absurd (key.mp hm) hcon⟩⟩
    · rw [if_neg hm]
      exact ⟨⟨fun h => absurd h (by decide), fun hcon => absurd (key.mpr hcon) hm⟩,
        ⟨fun _ hcon => hm (key.mpr hcon), fun _ => rfl⟩⟩
  · intro state tabs g hne
    simp only [groupSyncStatus, savedGroupByTitle_none _ _ hne]
  · intro state t
    simp only [tabSyncStatus]
    by_cases hmem : normalizeUrl t.url ∈
        ((state.map SavedState.ungroupedTabs).getD []).map SavedTab.url
    · rw [if_pos (by simpa using hmem)]
      exact ⟨⟨fun _ => hmem, fun _ => rfl⟩,
        ⟨fun h => absurd h (by decide), fun hcon => absurd hmem hcon⟩⟩
    · rw [if_neg (by simpa using hmem)]
      exact ⟨⟨fun h => absurd h (by decide), fun hcon => absurd hcon hmem⟩,
        ⟨fun _ => hmem, fun _ => rfl⟩⟩

/-- Witness for `sync_status_classification` at concrete inputs. -/
theorem sync_status_classification_witness :
    ((groupSyncStatus (some ⟨0, [], [⟨"W", TabGroupColor.blue, false,
          [⟨"P", "p", false, 0⟩]⟩]⟩)
        [⟨1, some "P", none, false, 0, 4⟩] ⟨4, some "W", TabGroupColor.red, false⟩ =
        SyncStatus.saved ↔
      (∀ u, u ∈ (liveGroupTabs [⟨1, some "P", none, false, 0, 4⟩]
          ⟨4, some "W", TabGroupColor.red, false⟩).map (fun tb => normalizeUrl tb.url) ↔
        u ∈ ([⟨"P", "p", false, 0⟩] : List SavedTab).map SavedTab.url)) ∧
     (groupSyncStatus (some ⟨0, [], [⟨"W", TabGroupColor.blue, false,
          [⟨"P", "p", false, 0⟩]⟩]⟩)
        [⟨1, some "P", none, false, 0, 4⟩] ⟨4, some "W", TabGroupColor.red, false⟩ =
        SyncStatus.outOfSync ↔
      ¬ (∀ u, u ∈ (liveGroupTabs [⟨1, some "P", none, false, 0, 4⟩]
          ⟨4, some "W", TabGroupColor.red, false⟩).map (fun tb => normalizeUrl tb.url) ↔
        u ∈ ([⟨"P", "p", false, 0⟩] : List SavedTab).map SavedTab.url))) :=
  sync_status_classification.1 (some ⟨0, [], [⟨"W", TabGroupColor.blue, false,
      [⟨"P", "p", false, 0⟩]⟩]⟩)
    [⟨1, some "P", none, false, 0, 4⟩] ⟨4, some "W", TabGroupColor.red, false⟩
    ⟨"W", TabGroupColor.blue, false, [⟨"P", "p", false, 0⟩]⟩
    (by decide) (by decide) rfl

/-! ### The restore call-order protocol -/

theorem specTabCalls_length (w : Nat) (tabs : List SavedTab) :
    (specTabCalls w tabs).length = tabs.length := by
  simp [specTabCalls]

theorem specGroupCalls_length (env : Nat → Option Nat) (w : Nat) (g : SavedGroup)
    (k : Nat) : (specGroupCalls env w g k).length = g.tabs.length + 2 := by
  simp [specGroupCalls, specTabCalls]

/-- Total number of external calls needed to restore a list of groups. -/
def groupsCallCount (gs : List SavedGroup) : Nat :=
  (gs.map (fun g => g.tabs.length + 2)).sum

theorem specGroupsCalls_length (env : Nat → Option Nat) (w : Nat) :
    ∀ (gs : List SavedGroup) (k : Nat),
      (specGroupsCalls env w gs k).length = groupsCallCount gs
  | [], _ => rfl
  | g :: gs, k => by
    simp only [specGroupsCalls, List.length_append, specGroupCalls_length,
      specGroupsCalls_length env w gs, groupsCallCount, List.map_cons, List.sum_cons]

theorem specTabIds_succ (env : Nat → Option Nat) (k n : Nat) :
    specTabIds env k (n + 1) = (env k).getD 0 :: specTabIds env (k + 1) n := by
  simp only [specTabIds, List.range_succ_eq_map, List.map_cons, List.map_map, Nat.add_zero]
  congr 1
  apply List.map_congr_left
  intro i _
  simp only [Function.comp]
  rw [show k + (i + 1) = k + 1 + i from by omega]

theorem createTabsSeq_ok (env : Nat → Option Nat) (w : Nat) :
    ∀ (tabs : List SavedTab) (k : Nat),
      (∀ j, k ≤ j → j < k + tabs.length → (env j).isSome) →
      createTabsSeq env w tabs k =
        (specTabCalls w tabs, some (specTabIds env k tabs.length, k + tabs.length))
  | [], k, _ => by simp [createTabsSeq, specTabCalls, specTabIds]
  | t :: ts, k, h => by
    have hk : (env k).isSome := h k (Nat.le_refl k) (by rw [List.length_cons]; omega)
    obtain ⟨id, hid⟩ := Option.isSome_iff_exists.mp hk
    have ih := createTabsSeq_ok env w ts (k + 1)
      (fun j h1 h2 => h j (by omega) (by rw [List.length_cons]; omega))
    simp only [createTabsSeq, hid, ih, specTabCalls, List.map_cons, List.length_cons]
    rw [specTabIds_succ, hid]
    simp only [Option.getD_some]
    rw [show k + 1 + ts.length = k + (ts.length + 1) from by omega]

theorem createTabsSeq_fail (env : Nat → Option Nat) (w : Nat) :
    ∀ (tabs : List SavedTab) (k m : Nat), k ≤ m → m < k + tabs.length →
      (∀ j, k ≤ j → j < m → (env j).isSome) → env m = none →
      createTabsSeq env w tabs k = ((specTabCalls w tabs).take (m - k + 1), none)
  | [], k, m, hkm, hm, _, _ => by
    simp only [List.length_nil, Nat.add_zero] at hm
    exact absurd hm (Nat.not_lt.mpr hkm)
  | t :: ts, k, m, hkm, hm, h, hnone => by
    by_cases hk : m = k
    · subst hk
      simp [createTabsSeq, hnone, specTabCalls, Nat.sub_self, List.take_succ_cons]
    · have hklt : k < m := Nat.lt_of_le_of_ne hkm (fun e => hk e.symm)
      have hks : (env k).isSome := h k (Nat.le_refl k) hklt
      obtain ⟨id, hid⟩ := Option.isSome_iff_exists.mp hks
      have ih := createTabsSeq_fail env w ts (k + 1) m hklt
        (by rw [List.length_cons] at hm; omega) (fun j h1 h2 => h j (by omega) h2) hnone
      simp only [createTabsSeq, hid, ih, specTabCalls, List.map_cons]
      rw [show m - k + 1 = (m - (k + 1) + 1) + 1 from by omega, List.take_succ_cons]

theorem restoreGroupSeq_ok (env : Nat → Option Nat) (w : Nat) (g : SavedGroup)
    (k : Nat) (h : ∀ j, k ≤ j → j < k + g.tabs.length + 2 → (env j).isSome) :
    restoreGroupSeq env w g k = (specGroupCalls env w g k, some (k + g.tabs.length + 2)) := by
  have htabs := createTabsSeq_ok env w g.tabs k (fun j h1 h2 => h j h1 (by omega))
  obtain ⟨gid, hgid⟩ := Option.isSome_iff_exists.mp
    (h (k + g.tabs.length) (by omega) (by omega))
  obtain ⟨ack, hack⟩ := Option.isSome_iff_exists.mp
    (h (k + g.tabs.length + 1) (by omega) (by omega))
  simp only [restoreGroupSeq, htabs, hgid, hack, specGroupCalls]
  simp

theorem restoreGroupSeq_fail (env : Nat → Option Nat) (w : Nat) (g : SavedGroup)
    (k m : Nat) (hkm : k ≤ m) (hm : m < k + g.tabs.length + 2)
    (h : ∀ j, k ≤ j → j < m → (env j).isSome) (hnone : env m = none) :
    restoreGroupSeq env w g k = ((specGroupCalls env w g k).take (m - k + 1), none) := by
  rcases Nat.lt_or_ge m (k + g.tabs.length) with hlt | hge
  · have htabs := createTabsSeq_fail env w g.tabs k m hkm hlt h hnone
    simp only [restoreGroupSeq, htabs, specGroupCalls]
    rw [List.take_append_eq_append_take,
      show m - k + 1 - (specTabCalls w g.tabs).length = 0 from by
        rw [specTabCalls_length]; omega]
    simp
  · have htabs := createTabsSeq_ok env w g.tabs k (fun j h1 h2 => h j h1 (by omega))
    have hcase : m = k + g.tabs.length ∨ m = k + g.tabs.length + 1 := by omega
    rcases hcase with he | he
    · subst he
      simp only [restoreGroupSeq, htabs, hnone, specGroupCalls]
      rw [List.take_append_eq_append_take,
        show k + g.tabs.length - k + 1 = g.tabs.length + 1 from by omega,
        show List.take (g.tabs.length + 1) (specTabCalls w g.tabs) = specTabCalls w g.tabs
          from List.take_of_length_le (by rw [specTabCalls_length]; omega),
        show g.tabs.length + 1 - (specTabCalls w g.tabs).length = 1 from by
          rw [specTabCalls_length]; omega]
      simp
    · subst he
      obtain ⟨gid, hgid⟩ := Option.isSome_iff_exists.mp
        (h (k + g.tabs.length) (by omega) (by omega))
      simp only [restoreGroupSeq, htabs, hgid, hnone, specGroupCalls, Option.getD_some]
      rw [show k + g.tabs.length + 1 - k + 1 = g.tabs.length + 2 from by omega,
        show List.take (g.tabs.length + 2) (specTabCalls w g.tabs ++
            [ExtCall.groupCreate (specTabIds env k g.tabs.length) w,
             ExtCall.groupUpdate gid g.title g.color g.collapsed])
          = specTabCalls w g.tabs ++
            [ExtCall.groupCreate (specTabIds env k g.tabs.length) w,
             ExtCall.groupUpdate gid g.title g.color g.collapsed]
          from List.take_of_length_le (by
            rw [List.length_append, specTabCalls_length]
            simp)]

theorem restoreGroupsSeq_ok (env : Nat → Option Nat) (w : Nat) :
    ∀ (gs : List SavedGroup) (k : Nat),
      (∀ j, k ≤ j → j < k + groupsCallCount gs → (env j).isSome) →
      restoreGroupsSeq env w gs k =
        (specGroupsCalls env w gs k, some (k + groupsCallCount gs))
  | [], k, _ => by simp [restoreGroupsSeq, specGroupsCalls, groupsCallCount]
  | g :: gs, k, h => by
    have hcount : groupsCallCount (g :: gs) = g.tabs.length + 2 + groupsCallCount gs := by
      simp [groupsCallCount]
    have h1 := restoreGroupSeq_ok env w g k (fun j ha hb => h j ha (by rw [hcount]; omega))
    have ih := restoreGroupsSeq_ok env w gs (k + g.tabs.length + 2)
      (fun j ha hb => h j (by omega) (by rw [hcount]; omega))
    simp only [restoreGroupsSeq, h1, ih, specGroupsCalls, hcount]
    rw [show k + g.tabs.length + 2 + groupsCallCount gs
        = k + (g.tabs.length + 2 + groupsCallCount gs) from by omega]

theorem restoreGroupsSeq_fail (env : Nat → Option Nat) (w : Nat) :
    ∀ (gs : List SavedGroup) (k m : Nat), k ≤ m → m < k + groupsCallCount gs →
      (∀ j, k ≤ j → j < m → (env j).isSome) → env m = none →
      restoreGroupsSeq env w gs k = ((specGroupsCalls env w gs k).take (m - k + 1), none)
  | [], k, m, hkm, hm, _, _ => by
    simp only [groupsCallCount, List.map_nil, List.sum_nil, Nat.add_zero] at hm
    exact absurd hm (Nat.not_lt.mpr hkm)
  | g :: gs, k, m, hkm, hm, h, hnone => by
    have hcount : groupsCallCount (g :: gs) = g.tabs.length + 2 + groupsCallCount gs := by
      simp [groupsCallCount]
    rcases Nat.lt_or_ge m (k + g.tabs.length + 2) with hlt | hge
    · have h1 := restoreGroupSeq_fail env w g k m hkm hlt h hnone
      simp only [restoreGroupsSeq, h1, specGroupsCalls]
      rw [List.take_append_eq_append_take,
        show m - k + 1 - (specGroupCalls env w g k).length = 0 from by
          rw [specGroupCalls_length]; omega]
      simp
    · have h1 := restoreGroupSeq_ok env w g k (fun j ha hb => h j ha (by omega))
      have ih := restoreGroupsSeq_fail env w gs (k + g.tabs.length + 2) m hge
        (by rw [hcount] at hm; omega) (fun j ha hb => h j (by omega) hb) hnone
      simp only [restoreGroupsSeq, h1, ih, specGroupsCalls]
      rw [List.take_append_eq_append_take,
        show m - k + 1 - (specGroupCalls env w g k).length
          = m - (k + g.tabs.length + 2) + 1 from by rw [specGroupCalls_length]; omega,
        show List.take (m - k + 1) (specGroupCalls env w g k) = specGroupCalls env w g k
          from List.take_of_length_le (by rw [specGroupCalls_length]; omega)]

/-- C4: the external-call order of `restoreAll`. With no saved state it
succeeds issuing no calls. Otherwise it resolves the window once, then
creates one inactive tab per saved ungrouped tab in list order, then for
each saved group in list order creates its member tabs sequentially in
saved order, issues one group-creation call with the collected ids and
one metadata update; when every call succeeds the trace is exactly the
canonical one, and when the n-th call fails the operation stops having
issued exactly the first n+1 canonical calls (the failing call included,
with no compensating deletions) and reports an error. -/
theorem restoreAll_call_order :
    (∀ env, restoreAll none env = ([], .ok)) ∧
    (∀ (s : SavedState) (env : Nat → Option Nat), (∀ n, (env n).isSome) →
        restoreAll (some s) env = (specRestoreTrace env s, .ok)) ∧
    (∀ (s : SavedState) (env : Nat → Option Nat) (k : Nat),
        (∀ j, j < k → (env j).isSome) → env k = none →
        k < (specRestoreTrace env s).length →
        restoreAll (some s) env =
          ((specRestoreTrace env s).take (k + 1), .err "ExternalServiceError")) := by
  refine ⟨fun env => rfl, ?_, ?_⟩
  · intro s env h
    obtain ⟨w, hw⟩ := Option.isSome_iff_exists.mp (h 0)
    have hu := createTabsSeq_ok env w s.ungroupedTabs 1 (fun j _ _ => h j)
    have hg := restoreGroupsSeq_ok env w s.groups (1 + s.ungroupedTabs.length)
      (fun j _ _ => h j)
    simp only [restoreAll, hw, hu, hg, specRestoreTrace, Option.getD_some]
    simp
  · intro s env k hpre hk hlen
    cases k with
    | zero =>
      simp only [restoreAll, hk, specRestoreTrace]
      simp [List.take_succ_cons]
    | succ k =>
      obtain ⟨w, hw⟩ := Option.isSome_iff_exists.mp (hpre 0 (Nat.succ_pos k))
      have hlen' : k + 1 < 1 + s.ungroupedTabs.length + groupsCallCount s.groups := by
        have h2 := hlen
        simp only [specRestoreTrace, List.length_cons, List.length_append,
          specTabCalls_length, specGroupsCalls_length] at h2
        omega
      by_cases hcase : k + 1 < 1 + s.ungroupedTabs.length
      · have hu := createTabsSeq_fail env w s.ungroupedTabs 1 (k + 1)
          (by omega) (by omega) (fun j h1 h2 => hpre j (by omega)) hk
        simp only [restoreAll, hw, hu, specRestoreTrace, Option.getD_some]
        rw [show k + 1 - 1 + 1 = k + 1 from by omega, List.take_succ_cons,
          List.take_append_eq_append_take,
          show k + 1 - (specTabCalls w s.ungroupedTabs).length = 0 from by
            rw [specTabCalls_length]; omega]
        simp
      · have hu := createTabsSeq_ok env w s.ungroupedTabs 1
          (fun j h1 h2 => hpre j (by omega))
        have hgf := restoreGroupsSeq_fail env w s.groups (1 + s.ungroupedTabs.length)
          (k + 1) (by omega) (by omega) (fun j h1 h2 => hpre j (by omega)) hk
        simp only [restoreAll, hw, hu, hgf, specRestoreTrace, Option.getD_some]
        rw [List.take_succ_cons, List.take_append_eq_append_take,
          show List.take (k + 1) (specTabCalls w s.ungroupedTabs)
            = specTabCalls w s.ungroupedTabs
            from List.take_of_length_le (by rw [specTabCalls_length]; omega),
          show k + 1 - (specTabCalls w s.ungroupedTabs).length
            = k + 1 - (1 + s.ungroupedTabs.length) + 1 from by
            rw [specTabCalls_length]; omega]
        simp

/-- Witness for `restoreAll_call_order` at concrete inputs: a fully
successful run and a run whose second call fails. -/
theorem restoreAll_call_order_witness :
    restoreAll (some ⟨0, [⟨"a", "t", false, 0⟩], []⟩) (fun n => some (n + 10)) =
      (specRestoreTrace (fun n => some (n + 10)) ⟨0, [⟨"a", "t", false, 0⟩], []⟩, .ok) ∧
    restoreAll (some ⟨0, [⟨"a", "t", false, 0⟩], []⟩)
        (fun n => if n = 1 then none else some (n + 10)) =
      ((specRestoreTrace (fun n => if n = 1 then none else some (n + 10))
          ⟨0, [⟨"a", "t", false, 0⟩], []⟩).take 2, .err "ExternalServiceError") := by
  constructor
  · exact restoreAll_call_order.2.1 _ _ (fun n => rfl)
  · exact restoreAll_call_order.2.2 _ _ 1
      (by intro j hj
          have hj0 : j = 0 := by omega
          subst hj0
          rfl)
      rfl
      (by norm_num [specRestoreTrace, specTabCalls, specGroupsCalls])

/-- C8: `restoreTab` searches only the saved `ungroupedTabs` list: when no
ungrouped entry has the requested url (even if that url appears inside a
saved group's tabs), it returns NotFound and issues no calls at all; when
an ungrouped entry matches, it resolves the window and issues exactly one
inactive tab creation carrying that entry's url and pinned flag. -/
theorem restoreTab_ungrouped_only :
    (∀ (u : String) (store : Option SavedState) (env : Nat → Option Nat),
        (∀ s, store = some s → ∀ tb ∈ s.ungroupedTabs, tb.url ≠ u) →
        restoreTab u store env = ([], .err s!"No saved tab with URL \"{u}\"")) ∧
    (∀ (u : String) (s : SavedState) (env : Nat → Option Nat) (t : SavedTab) (w : Nat),
        s.ungroupedTabs.find? (fun tb => tb.url == u) = some t →
        env 0 = some w → (env 1).isSome →
        restoreTab u (some s) env =
          ([.getWindow, .createTab t.url t.pinned w false], .ok)) := by
  constructor
  · intro u store env h
    have hn : store.bind (fun s => s.ungroupedTabs.find? (fun tb => tb.url == u))
        = none := by
      cases store with
      | none => rfl
      | some st =>
        simp only [Option.some_bind]
        exact List.find?_eq_none.mpr (fun tb htb => by simp [h st rfl tb htb])
    simp [restoreTab, hn]
  · intro u s env t w hfind h0 h1
    obtain ⟨ack, hack⟩ := Option.isSome_iff_exists.mp h1
    simp [restoreTab, hfind, h0, hack]

/-- Witness for `restoreTab_ungrouped_only`: the url "P" lives only
inside a saved group, so restoring it fails and creates nothing; a
matching ungrouped entry is restored with one creation call. -/
theorem restoreTab_ungrouped_only_witness :
    restoreTab "P" (some ⟨0, [],
        [⟨"W", TabGroupColor.blue, false, [⟨"P", "p", false, 0⟩]⟩]⟩)
      (fun _ => some 3) = ([], .err "No saved tab with URL \"P\"") ∧
    restoreTab "X" (some ⟨0, [⟨"X", "x", true, 0⟩], []⟩) (fun _ => some 3) =
      ([.getWindow, .createTab "X" true 3 false], .ok) := by
  constructor
  · exact restoreTab_ungrouped_only.1 "P" _ _
      (by rintro s hs tb htb
          rw [Option.some.injEq] at hs
          subst hs
          exact absurd htb (List.not_mem_nil tb))
  · exact restoreTab_ungrouped_only.2 "X" _ _ ⟨"X", "x", true, 0⟩ 3 (by decide) rfl rfl

end TabSaver

